import Mathlib

/-!
Shallow embedding of `scripts/generate.js`: a build-time utility that merges
per-category JSON list files into one aggregated array, validating record
shape and uniqueness of the `number` field before writing the output.

Modelling conventions:
* A JSON value produced by `JSON.parse` is a `JSVal` (string, number,
  boolean, null, array, object).  JSON text has no `undefined` and no `NaN`,
  so neither appears as a constructor; absence of an object key is modelled
  with `Option` at the lookup site.
* A number value is carried as the decimal string the JS runtime renders it
  with; two parsed numbers are `SameValueZero`-equal exactly when their
  rendered forms coincide (double rendering is injective up to `-0`/`0`,
  which `SameValueZero` also identifies).
* A record (one element of a parsed input array) is an association list of
  key/value pairs in insertion order; `JSON.parse` keeps one binding per key.
* Each input file is modelled by its parse result: `none` when `JSON.parse`
  threw (the script logs and skips such a file), `some records` when it
  parsed to an array of records, which is the documented input format.
-/

inductive JSVal where
  | vStr (s : String)
  | vNum (render : String)
  | vBool (b : Bool)
  | vNull
  | vArr (elems : List JSVal)
  | vObj (fields : List (String × JSVal))

/-- One catalog record: a parsed JSON object, keys in insertion order. -/
def Record : Type := List (String × JSVal)

/-- Property lookup `item[key]`: `none` models the JS value `undefined`. -/
def getField (item : Record) (k : String) : Option JSVal :=
  (item.find? (fun kv => kv.1 == k)).map (fun kv => kv.2)

/-- Translation of `item.hasOwnProperty(key)` for parsed records. -/
def hasOwnProperty (item : Record) (k : String) : Bool :=
  (getField item k).isSome

/-- Translation of `typeof v === "string"` (`none` is `undefined`). -/
def typeofIsString (v : Option JSVal) : Bool :=
  match v with
  | some (.vStr _) => true
  | _ => false

/-- Translation of `item.hasOwnProperty(key) && typeof item[key] === "string"`
(the `hasKey` test inside `validateItemFormat`). -/
def hasStringField (item : Record) (k : String) : Bool :=
  hasOwnProperty item k && typeofIsString (getField item k)

mutual
/-- `String(v)` for a parsed JSON value (default `toString`): used by the
abstract `==` comparison when an array is coerced to a primitive. -/
def jsToString (v : JSVal) : String :=
  match v with
  | .vStr s => s
  | .vNum r => r
  | .vBool b => if b then "true" else "false"
  | .vNull => "null"
  | .vArr xs => joinArr xs
  | .vObj _ => "[object Object]"
termination_by sizeOf v

/-- `Array.prototype.toString` = `join(",")`; `null` elements render empty. -/
def joinArr (xs : List JSVal) : String :=
  match xs with
  | [] => ""
  | [x] => joinElem x
  | x :: y :: ys => joinElem x ++ "," ++ joinArr (y :: ys)
termination_by sizeOf xs

def joinElem (v : JSVal) : String :=
  match v with
  | .vNull => ""
  | v => jsToString v
termination_by 1 + sizeOf v
end

/-- Translation of the loose comparison `v == "audio"` on a parsed JSON value:
a string compares by value; an array is coerced via `toString` and then
compared; a plain object coerces to `"[object Object]"`, never `"audio"`;
a number or boolean forces `ToNumber("audio") = NaN`, equal to nothing;
`null` is loosely equal only to `undefined`. -/
def looseEqAudio (v : JSVal) : Bool :=
  match v with
  | .vStr s => s == "audio"
  | .vArr xs => joinArr xs == "audio"
  | .vObj _ => false
  | .vNum _ => false
  | .vBool _ => false
  | .vNull => false

/-- Translation of the schema discriminator `item.type == "audio"`
(`undefined == "audio"` is false when the key is absent). -/
def typeLooseAudio (item : Record) : Bool :=
  match getField item "type" with
  | some v => looseEqAudio v
  | none => false

def videoRequiredKeys : List String :=
  ["number", "name", "code", "type", "category", "playlist"]

def audioRequiredKeys : List String :=
  ["number", "name", "code", "type", "audio"]

/-- `currentRequiredKeys` as selected in `validateItemFormat`. -/
def requiredKeysFor (item : Record) : List String :=
  if typeLooseAudio item then audioRequiredKeys else videoRequiredKeys

/-- The `currentRequiredKeys.every(...)` loop of `validateItemFormat`,
returning `hasAllKeys` together with the `missingKeys` array.
`Array.prototype.every` stops iterating at the first callback that returns a
falsy value, so at most one key is pushed into `missingKeys`. -/
def everyCollect (item : Record) (keys : List String) : Bool × List String :=
  match keys with
  | [] => (true, [])
  | k :: ks =>
    if hasStringField item k then everyCollect item ks else (false, [k])

/-- One row of `invalidItems`: `{ channel: item.number, missing: missingKeys }`;
`channel` is `none` when the record has no `number` key (JS `undefined`). -/
structure InvalidItem where
  channel : Option JSVal
  missing : List String

/-- Return shape of `validateItemFormat`. -/
structure FormatValidation where
  isValid : Bool
  invalidItems : List InvalidItem

/-- Translation of `validateItemFormat`. -/
def validateItemFormat (data : List Record) : FormatValidation :=
  let invalidItems := data.filterMap (fun item =>
    let r := everyCollect item (requiredKeysFor item)
    if r.1 then none else some ⟨getField item "number", r.2⟩)
  ⟨invalidItems.length == 0, invalidItems⟩

/-- Single-record validity: the record passes `validateItemFormat`. -/
def itemValid (item : Record) : Bool :=
  (everyCollect item (requiredKeysFor item)).1

/-- `item.number` of a record. -/
def numField (item : Record) : Option JSVal :=
  getField item "number"

/-- Equality used on `number` values by `checkForDuplicateNumber`:
`Set.has` uses `SameValueZero` and `find` compares with `===`.  On values
coming out of `JSON.parse` both coincide: primitives compare by value (JSON
has no `NaN`), while arrays and objects compare by reference identity, and
every parsed object is a fresh reference, so those comparisons are false. -/
def jsEq (a b : Option JSVal) : Bool :=
  match a, b with
  | some (.vStr x), some (.vStr y) => x == y
  | some (.vNum x), some (.vNum y) => x == y
  | some (.vBool x), some (.vBool y) => x == y
  | some .vNull, some .vNull => true
  | none, none => true
  | _, _ => false

/-- Whether a value compares by value under `===`/`SameValueZero`
(arrays and objects compare by reference instead). -/
def isPrim (v : Option JSVal) : Bool :=
  match v with
  | some (.vArr _) => false
  | some (.vObj _) => false
  | _ => true

/-- One row of `duplicates`: `{ channel: item.number, count }`. -/
structure DuplicateEntry where
  channel : Option JSVal
  count : Nat

/-- `duplicateEntry.count += 1`: the first entry matching the channel is
updated in place; the rest of the list is untouched. -/
def incrementFirst (n : Option JSVal) (ds : List DuplicateEntry) :
    List DuplicateEntry :=
  match ds with
  | [] => []
  | d :: ds =>
    if jsEq d.channel n then ⟨d.channel, d.count + 1⟩ :: ds
    else d :: incrementFirst n ds

/-- The `for (const item of data)` loop of `checkForDuplicateNumber`:
`seen` is the `existing` set, `dups` the `duplicates` array. -/
def checkLoop (data : List Record) (seen : List (Option JSVal))
    (dups : List DuplicateEntry) : List DuplicateEntry :=
  match data with
  | [] => dups
  | item :: rest =>
    if seen.any (fun s => jsEq s (numField item)) then
      match dups.find? (fun d => jsEq d.channel (numField item)) with
      | some _ => checkLoop rest seen (incrementFirst (numField item) dups)
      | none => checkLoop rest seen (dups ++ [⟨numField item, 2⟩])
    else checkLoop rest (numField item :: seen) dups

/-- Return shape of `checkForDuplicateNumber`. -/
structure DuplicateCheck where
  hasDuplicate : Bool
  duplicates : List DuplicateEntry

/-- Translation of `checkForDuplicateNumber`. -/
def checkForDuplicateNumber (data : List Record) : DuplicateCheck :=
  let duplicates := checkLoop data [] []
  ⟨decide (0 < duplicates.length), duplicates⟩

/-- Translation of the `files.forEach` loop of `mergeData`: each file is
given by its parse result; a file whose `JSON.parse` threw (`none`) is
logged and skipped, every other file's array is appended via
`mergedData.concat(fileData)`. -/
def mergeData (files : List (Option (List Record))) : List Record :=
  files.foldl (fun acc f =>
    match f with
    | some records => acc ++ records
    | none => acc) []

/-- Hex digit used by `JSON.stringify` when escaping a control character. -/
def toHexDigit (n : Nat) : Char :=
  if n < 10 then Char.ofNat (48 + n) else Char.ofNat (87 + n)

/-- Character escaping of ECMA `QuoteJSONString`: quote, backslash, the
named control escapes, and `\u00xx` for the remaining control characters. -/
def escapeChar (c : Char) : String :=
  if c = Char.ofNat 34 then "\\\""
  else if c = Char.ofNat 92 then "\\\\"
  else if c = Char.ofNat 8 then "\\b"
  else if c = Char.ofNat 9 then "\\t"
  else if c = Char.ofNat 10 then "\\n"
  else if c = Char.ofNat 12 then "\\f"
  else if c = Char.ofNat 13 then "\\r"
  else if c.toNat < 32 then
    "\\u00" ++ String.mk [toHexDigit (c.toNat / 16), toHexDigit (c.toNat % 16)]
  else String.mk [c]

def quoteString (s : String) : String :=
  "\"" ++ String.join (s.data.map escapeChar) ++ "\""

mutual
/-- `JSON.stringify(v, null, 2)` at nesting indent `ind` (the `stepback`
indentation of the enclosing value; the gap is two spaces). -/
def serializeVal (ind : String) (v : JSVal) : String :=
  match v with
  | .vNull => "null"
  | .vBool b => if b then "true" else "false"
  | .vNum r => r
  | .vStr s => quoteString s
  | .vArr xs => serializeArr ind xs
  | .vObj kvs => serializeObj ind kvs
termination_by sizeOf v

def serializeArr (ind : String) (xs : List JSVal) : String :=
  match xs with
  | [] => "[]"
  | x :: xs => "[\n" ++ serializeElems (ind ++ "  ") x xs ++ "\n" ++ ind ++ "]"
termination_by sizeOf xs

def serializeElems (ind : String) (x : JSVal) (xs : List JSVal) : String :=
  match xs with
  | [] => ind ++ serializeVal ind x
  | y :: ys => ind ++ serializeVal ind x ++ ",\n" ++ serializeElems ind y ys
termination_by sizeOf x + sizeOf xs

def serializeObj (ind : String) (kvs : List (String × JSVal)) : String :=
  match kvs with
  | [] => "\x7b\x7d"
  | (k, v) :: kvs =>
    "\x7b\n" ++ serializeMembers (ind ++ "  ") k v kvs ++ "\n" ++ ind ++ "\x7d"
termination_by sizeOf kvs

def serializeMembers (ind : String) (k : String) (v : JSVal)
    (kvs : List (String × JSVal)) : String :=
  match kvs with
  | [] => ind ++ quoteString k ++ ": " ++ serializeVal ind v
  | (k2, v2) :: rest =>
    ind ++ quoteString k ++ ": " ++ serializeVal ind v ++ ",\n" ++
      serializeMembers ind k2 v2 rest
termination_by sizeOf v + sizeOf kvs
end

/-- `JSON.stringify(mergedData, null, 2)`: the merged collection is an array
of records. -/
def jsStringify (data : List Record) : String :=
  serializeVal "" (JSVal.vArr (data.map JSVal.vObj))

/-- Observable outcome of one run of the orchestrating IIFE. -/
inductive MainOutcome where
  | abortedInvalid (invalidItems : List InvalidItem)
  | abortedDuplicates (duplicates : List DuplicateEntry)
  | written (contents : String) (total : Nat)

/-- Translation of the orchestrating IIFE after `mergeData` resolved:
abort on invalid items, else abort on duplicates, else write
`JSON.stringify(mergedData, null, 2)` and report `mergedData.length`. -/
def mainRun (data : List Record) : MainOutcome :=
  let validation := validateItemFormat data
  if !validation.isValid then .abortedInvalid validation.invalidItems
  else
    let check := checkForDuplicateNumber data
    if check.hasDuplicate then .abortedDuplicates check.duplicates
    else .written (jsStringify data) data.length

/-- Whole pipeline on a successfully enumerated directory, each file given
by its parse result in directory-enumeration order. -/
def mainForFiles (files : List (Option (List Record))) : MainOutcome :=
  mainRun (mergeData files)

/-! Specification-side definitions, used only to state properties. -/

/-- Number of occurrences of `number` value `v` in the collection, counted
with the comparison the duplicate checker uses. -/
def occCount (data : List Record) (v : Option JSVal) : Nat :=
  data.countP (fun item => jsEq (numField item) v)

/-- Values listed in the order of their second occurrence: walking the
collection left to right with processed prefix `pre`, an item is emitted
exactly when it is the second occurrence of its `number` value. -/
def secondOccSeq : List Record → List Record → List (Option JSVal)
  | _, [] => []
  | pre, item :: rest =>
    if occCount pre (numField item) = 1 then
      numField item :: secondOccSeq (pre ++ [item]) rest
    else secondOccSeq (pre ++ [item]) rest

/-- Spec-side schema discriminator: audio variant exactly when the `type`
field is the literal string `"audio"`. -/
def typeIsLiteralAudio (item : Record) : Bool :=
  match getField item "type" with
  | some (.vStr s) => s == "audio"
  | _ => false

/-- Spec-side key selection following the spec's words. -/
def requiredKeysLiteral (item : Record) : List String :=
  if typeIsLiteralAudio item then audioRequiredKeys else videoRequiredKeys

/-- Spec-side validator: identical to `validateItemFormat` except that the
variant is selected by literal string equality of the `type` field, as the
spec words it. -/
def validateItemFormatLiteral (data : List Record) : FormatValidation :=
  let invalidItems := data.filterMap (fun item =>
    let r := everyCollect item (requiredKeysLiteral item)
    if r.1 then none else some ⟨getField item "number", r.2⟩)
  ⟨invalidItems.length == 0, invalidItems⟩

/-! Sample inputs used by witness theorems. -/

/-- A well-formed video record. -/
def sampleVideo1 : Record :=
  [("number", JSVal.vStr "1"), ("name", JSVal.vStr "One"),
   ("code", JSVal.vStr "c1"), ("type", JSVal.vStr "video"),
   ("category", JSVal.vStr "news"), ("playlist", JSVal.vStr "p1")]

/-- A second well-formed video record with a distinct `number`. -/
def sampleVideo2 : Record :=
  [("number", JSVal.vStr "2"), ("name", JSVal.vStr "Two"),
   ("code", JSVal.vStr "c2"), ("type", JSVal.vStr "video"),
   ("category", JSVal.vStr "news"), ("playlist", JSVal.vStr "p2")]

/-- A well-formed audio record with a distinct `number`. -/
def sampleAudio : Record :=
  [("number", JSVal.vStr "3"), ("name", JSVal.vStr "Three"),
   ("code", JSVal.vStr "c3"), ("type", JSVal.vStr "audio"),
   ("audio", JSVal.vStr "u3")]

/-- A record carrying only a `number` (invalid for both variants). -/
def sampleNumberOnly (n : String) : Record :=
  [("number", JSVal.vStr n)]

/-! Basic lemmas about the embedded functions. -/

theorem jsEq_iff (a b : Option JSVal) :
    jsEq a b = true ↔ isPrim a = true ∧ a = b := by
  cases a with
  | none =>
    cases b with
    | none => simp [jsEq, isPrim]
    | some vb => cases vb <;> simp [jsEq, isPrim]
  | some va =>
    cases b with
    | none => cases va <;> simp [jsEq, isPrim]
    | some vb => cases va <;> cases vb <;> simp [jsEq, isPrim]

theorem jsEq_refl (a : Option JSVal) (h : isPrim a = true) : jsEq a a = true :=
  (jsEq_iff a a).mpr ⟨h, rfl⟩

theorem everyCollect_eq (item : Record) (keys : List String) :
    everyCollect item keys =
      match keys.find? (fun k => !hasStringField item k) with
      | none => (true, [])
      | some k => (false, [k]) := by
  induction keys with
  | nil => rfl
  | cons k ks ih =>
    cases h : hasStringField item k <;>
      simp [everyCollect, h, List.find?_cons, ih]

theorem everyCollect_true_iff (item : Record) (keys : List String) :
    (everyCollect item keys).1 = true ↔
      ∀ k ∈ keys, hasStringField item k = true := by
  induction keys with
  | nil => simp [everyCollect]
  | cons k ks ih =>
    cases h : hasStringField item k <;> simp [everyCollect, h, ih]

theorem everyCollect_missing (item : Record) (keys : List String) :
    ∀ k ∈ (everyCollect item keys).2, hasStringField item k = false := by
  induction keys with
  | nil => simp [everyCollect]
  | cons k ks ih =>
    cases h : hasStringField item k
    · simp [everyCollect, h]
    · simpa [everyCollect, h] using ih

/-- Claim C6: the shape validator counts a field as present exactly when the
record has the key as its own property and the stored value has string type;
an absent key and a non-string value both count as missing.  Stated on the
key-checking loop: it accepts a record exactly when every required key is a
present string, and every key it reports fails that conjunction. -/
theorem c6_presence (item : Record) (keys : List String) :
    ((everyCollect item keys).1 = true ↔
      ∀ k ∈ keys, hasOwnProperty item k = true ∧
        typeofIsString (getField item k) = true)
    ∧ ∀ k ∈ (everyCollect item keys).2,
        ¬(hasOwnProperty item k = true ∧
          typeofIsString (getField item k) = true) := by
  have hsf : ∀ k : String, hasStringField item k = true ↔
      hasOwnProperty item k = true ∧ typeofIsString (getField item k) = true := by
    intro k; simp [hasStringField, Bool.and_eq_true]
  constructor
  · rw [everyCollect_true_iff]
    exact ⟨fun h k hk => (hsf k).mp (h k hk), fun h k hk => (hsf k).mpr (h k hk)⟩
  · intro k hk hcontra
    have h2 : hasStringField item k = true := (hsf k).mpr hcontra
    have h1 := everyCollect_missing item keys k hk
    rw [h1] at h2
    exact Bool.false_ne_true h2

/-- Witness for C6 at a concrete record and the concrete video key list. -/
theorem c6_presence_witness :
    ((everyCollect sampleVideo1 videoRequiredKeys).1 = true ↔
      ∀ k ∈ videoRequiredKeys, hasOwnProperty sampleVideo1 k = true ∧
        typeofIsString (getField sampleVideo1 k) = true)
    ∧ ∀ k ∈ (everyCollect sampleVideo1 videoRequiredKeys).2,
        ¬(hasOwnProperty sampleVideo1 k = true ∧
          typeofIsString (getField sampleVideo1 k) = true) :=
  c6_presence sampleVideo1 videoRequiredKeys

/-- Counterexample to claim C1 as stated: the empty record is missing every
video field, in particular `name`, yet its report entry lists only
`number` — `Array.prototype.every` stopped at the first missing key. -/
theorem c1_counterexample :
    hasStringField ([] : Record) "name" = false ∧
    (validateItemFormat [([] : Record)]).invalidItems.map InvalidItem.missing
      = [["number"]] := by
  decide

/-- Claim C1 as amended: the report has exactly one entry per invalid record
(the collection is traversed by `filterMap`), and that entry's missing-field
list holds exactly the FIRST required key the record is missing, in the
variant's required-key order, because `every` short-circuits. -/
theorem c1_first_missing_only (data : List Record) :
    (validateItemFormat data).invalidItems = data.filterMap (fun item =>
      match (requiredKeysFor item).find? (fun k => !hasStringField item k) with
      | none => none
      | some k => some ⟨getField item "number", [k]⟩) := by
  unfold validateItemFormat
  simp only
  apply List.filterMap_congr
  intro item _
  have he := everyCollect_eq item (requiredKeysFor item)
  cases hf : (requiredKeysFor item).find? (fun k => !hasStringField item k) with
  | none => rw [hf] at he; simp [he]
  | some k => rw [hf] at he; simp [he]

/-- Claim C2: the orchestrator aborts with the invalid items whenever shape
validation fails; aborts with the duplicate report when shape passes but
duplicates exist; and writes exactly when both checks pass. -/
theorem c2_orchestration (data : List Record) :
    ((validateItemFormat data).isValid = false →
      mainRun data = MainOutcome.abortedInvalid
        (validateItemFormat data).invalidItems)
    ∧ ((validateItemFormat data).isValid = true →
        (checkForDuplicateNumber data).hasDuplicate = true →
        mainRun data = MainOutcome.abortedDuplicates
          (checkForDuplicateNumber data).duplicates)
    ∧ ((∃ s n, mainRun data = MainOutcome.written s n) ↔
        (validateItemFormat data).isValid = true ∧
          (checkForDuplicateNumber data).hasDuplicate = false) := by
  refine ⟨fun h => ?_, fun h1 h2 => ?_, ?_⟩
  · simp [mainRun, h]
  · simp [mainRun, h1, h2]
  · constructor
    · rintro ⟨s, n, h⟩
      cases h1 : (validateItemFormat data).isValid <;>
        cases h2 : (checkForDuplicateNumber data).hasDuplicate <;>
        simp [mainRun, h1, h2] at h ⊢
    · rintro ⟨h1, h2⟩
      exact ⟨jsStringify data, data.length, by simp [mainRun, h1, h2]⟩

/-- Witness for C2 at a concrete invalid input. -/
theorem c2_orchestration_witness :
    mainRun [([] : Record)] = MainOutcome.abortedInvalid
      (validateItemFormat [([] : Record)]).invalidItems :=
  (c2_orchestration [([] : Record)]).1 (by decide)

/-- When the `type` value is not a present string, checking against the
audio key list and against the video key list produce the same result: the
two lists agree on their first four keys and the walk stops at `type`. -/
theorem everyCollect_type_not_string (item : Record)
    (h : hasStringField item "type" = false) :
    everyCollect item audioRequiredKeys = everyCollect item videoRequiredKeys := by
  simp only [audioRequiredKeys, videoRequiredKeys]
  cases h1 : hasStringField item "number" <;>
    cases h2 : hasStringField item "name" <;>
    cases h3 : hasStringField item "code" <;>
    simp [everyCollect, h1, h2, h3, h]

/-- The key check is insensitive to the difference between the source's
loose discriminator `item.type == "audio"` and literal string equality: a
non-string `type` that coerces loosely to `"audio"` fails the `type` key
under either variant. -/
theorem everyCollect_keys_agree (item : Record) :
    everyCollect item (requiredKeysFor item) =
      everyCollect item (requiredKeysLiteral item) := by
  unfold requiredKeysFor requiredKeysLiteral typeLooseAudio typeIsLiteralAudio
  cases hg : getField item "type" with
  | none => simp
  | some v =>
    cases v with
    | vStr s => simp [looseEqAudio]
    | vArr xs =>
      have hts : hasStringField item "type" = false := by
        simp [hasStringField, typeofIsString, hg]
      cases hl : looseEqAudio (JSVal.vArr xs) <;>
        simp [hl, everyCollect_type_not_string item hts]
    | vNum r => simp [looseEqAudio]
    | vBool b => simp [looseEqAudio]
    | vNull => simp [looseEqAudio]
    | vObj kvs => simp [looseEqAudio]

/-- Claim C5: the shape validator behaves exactly as if a record were
checked against the audio variant's required fields precisely when its
`type` field is the literal string `"audio"`, and against the video
variant's fields otherwise (in particular when `type` is absent). -/
theorem c5_variant_selection (data : List Record) :
    validateItemFormat data = validateItemFormatLiteral data := by
  have h : (fun item : Record =>
        let r := everyCollect item (requiredKeysFor item)
        if r.1 then none else some (⟨getField item "number", r.2⟩ : InvalidItem))
      = (fun item : Record =>
        let r := everyCollect item (requiredKeysLiteral item)
        if r.1 then none else some ⟨getField item "number", r.2⟩) :=
    funext fun item => by rw [everyCollect_keys_agree]
  simp only [validateItemFormat, validateItemFormatLiteral, h]

/-- The merge loop concatenates exactly the successfully parsed arrays, in
enumeration order. -/
theorem mergeData_eq_flatten (files : List (Option (List Record))) :
    mergeData files = (files.filterMap id).flatten := by
  have key : ∀ (fs : List (Option (List Record))) (acc : List Record),
      fs.foldl (fun acc f =>
        match f with
        | some records => acc ++ records
        | none => acc) acc = acc ++ (fs.filterMap id).flatten := by
    intro fs
    induction fs with
    | nil => intro acc; simp
    | cons f rest ih =>
      intro acc
      cases f with
      | none => simp [List.foldl_cons, ih, List.filterMap_cons]
      | some xs => simp [List.foldl_cons, ih, List.filterMap_cons]
  have := key files []
  simpa [mergeData] using this

/-- Claim C7: a file whose parse failed contributes nothing, every other
file's records all appear, and the merge is the concatenation of the
successfully parsed arrays in enumeration order; no parse failure aborts
the merge. -/
theorem c7_skip_bad_files (files : List (Option (List Record))) :
    mergeData files = (files.filterMap id).flatten
    ∧ ∀ f ∈ files, ∀ xs, f = some xs → ∀ r ∈ xs, r ∈ mergeData files := by
  refine ⟨mergeData_eq_flatten files, fun f hf xs hfx r hr => ?_⟩
  rw [mergeData_eq_flatten files]
  rw [List.mem_flatten]
  refine ⟨xs, ?_, hr⟩
  rw [List.mem_filterMap]
  exact ⟨f, hf, by simp [hfx]⟩

/-- Witness for C7: a record of a file after a failing file still appears. -/
theorem c7_skip_bad_files_witness :
    sampleVideo2 ∈ mergeData [some [sampleVideo1], none, some [sampleVideo2]] :=
  (c7_skip_bad_files [some [sampleVideo1], none, some [sampleVideo2]]).2
    (some [sampleVideo2]) (by simp) [sampleVideo2] rfl sampleVideo2 (by simp)

/-- Claim C8: the pipeline is a function of the enumerated file contents
alone; identical inputs (same enumeration order, same parse results) give
identical outcomes, in particular byte-identical written output, so a rerun
on unchanged inputs is idempotent. -/
theorem c8_deterministic (fs1 fs2 : List (Option (List Record)))
    (h : fs1 = fs2) : mainForFiles fs1 = mainForFiles fs2 := by
  rw [h]

/-- Witness for C8. -/
theorem c8_deterministic_witness :
    mainForFiles [some [sampleVideo1]] = mainForFiles [some [sampleVideo1]] :=
  c8_deterministic [some [sampleVideo1]] [some [sampleVideo1]] rfl

/-- Claim C9: whatever the writer serializes is exactly the loader's merged
output — the validators contribute nothing to it.  In the source the two
validators only read the records (the single mutation in
`checkForDuplicateNumber` updates a fresh report object), which the pure
embedding reflects; hence a written file is always the serialization of
`mergeData`'s result, element for element, with its length reported. -/
theorem c9_writer_uses_loader_output (files : List (Option (List Record)))
    (s : String) (n : Nat)
    (h : mainForFiles files = MainOutcome.written s n) :
    s = jsStringify (mergeData files) ∧ n = (mergeData files).length := by
  cases h1 : (validateItemFormat (mergeData files)).isValid
  · exfalso; simp [mainForFiles, mainRun, h1] at h
  · cases h2 : (checkForDuplicateNumber (mergeData files)).hasDuplicate
    · simp [mainForFiles, mainRun, h1, h2] at h
      exact ⟨h.1.symm, h.2.symm⟩
    · exfalso; simp [mainForFiles, mainRun, h1, h2] at h

/-- Witness for C9 on the empty directory. -/
theorem c9_writer_uses_loader_output_witness :
    jsStringify (mergeData ([] : List (Option (List Record))))
        = jsStringify (mergeData [])
    ∧ (0 : Nat) = (mergeData ([] : List (Option (List Record)))).length :=
  c9_writer_uses_loader_output [] (jsStringify (mergeData [])) 0 rfl

/-! Lemmas about occurrence counting and the duplicate-checker loop. -/

theorem occCount_pos (data : List Record) (v : Option JSVal) :
    0 < occCount data v ↔ ∃ item ∈ data, jsEq (numField item) v = true := by
  simp [occCount, List.countP_pos_iff]

theorem occCount_append_singleton (pre : List Record) (item : Record)
    (v : Option JSVal) :
    occCount (pre ++ [item]) v =
      occCount pre v + (if jsEq (numField item) v then 1 else 0) := by
  simp [occCount, List.countP_append, List.countP_cons]

theorem occCount_append_cons (pre : List Record) (item : Record)
    (rest : List Record) (v : Option JSVal) :
    occCount (pre ++ item :: rest) v = occCount ((pre ++ [item]) ++ rest) v := by
  rw [List.append_cons]

theorem incrementFirst_map_channel (n : Option JSVal)
    (ds : List DuplicateEntry) :
    (incrementFirst n ds).map DuplicateEntry.channel
      = ds.map DuplicateEntry.channel := by
  induction ds with
  | nil => rfl
  | cons d ds ih =>
    cases hd : jsEq d.channel n <;> simp [incrementFirst, hd, ih]

/-- When no entry matches, the in-place update touches nothing. -/
theorem incrementMap_id (n : Option JSVal) (ds : List DuplicateEntry)
    (h : ∀ d ∈ ds, jsEq d.channel n = false) :
    ds.map (fun d => if jsEq d.channel n
      then DuplicateEntry.mk d.channel (d.count + 1) else d) = ds := by
  induction ds with
  | nil => rfl
  | cons d ds ih =>
    have hd := h d (by simp)
    simp only [List.map_cons, hd]
    rw [if_neg (by simp [hd])]
    rw [ih (fun d' hd' => h d' (by simp [hd']))]

/-- With at most one matching entry, incrementing the first match is
incrementing every match. -/
theorem incrementFirst_eq_map (n : Option JSVal) (ds : List DuplicateEntry)
    (h : ds.countP (fun d => jsEq d.channel n) ≤ 1) :
    incrementFirst n ds = ds.map (fun d => if jsEq d.channel n
      then DuplicateEntry.mk d.channel (d.count + 1) else d) := by
  induction ds with
  | nil => rfl
  | cons d ds ih =>
    rw [List.countP_cons] at h
    cases hd : jsEq d.channel n
    · rw [hd] at h
      simp at h
      simp [incrementFirst, hd, ih h]
    · rw [hd] at h
      simp at h
      simp [incrementFirst, hd, incrementMap_id n ds h]

/-- The update map preserves channels, hence all channel counts. -/
theorem countP_incrementMap (n v : Option JSVal) (ds : List DuplicateEntry) :
    (ds.map (fun d => if jsEq d.channel n
      then DuplicateEntry.mk d.channel (d.count + 1) else d)).countP
        (fun d => jsEq d.channel v)
      = ds.countP (fun d => jsEq d.channel v) := by
  induction ds with
  | nil => rfl
  | cons d ds ih =>
    cases hd : jsEq d.channel n <;>
      simp [List.countP_cons, hd, ih]

/-- Extending the processed prefix by an already-seen item leaves the seen
set invariant correct. -/
theorem seen_inv_extend (pre : List Record) (seen : List (Option JSVal))
    (item : Record)
    (hA : ∀ v, seen.any (fun s => jsEq s v) = true ↔ 1 ≤ occCount pre v)
    (hseen : seen.any (fun s => jsEq s (numField item)) = true) :
    ∀ v, seen.any (fun s => jsEq s v) = true
      ↔ 1 ≤ occCount (pre ++ [item]) v := by
  intro v
  rw [occCount_append_singleton]
  cases hj : jsEq (numField item) v
  · rw [if_neg (by simp [hj])]
    simpa using hA v
  · obtain ⟨hp, hv⟩ := (jsEq_iff _ _).mp hj
    subst hv
    simpa using hseen

/-- Extending the processed prefix by a first-occurrence item matches
adding its number to the seen set. -/
theorem seen_inv_extend_new (pre : List Record) (seen : List (Option JSVal))
    (item : Record)
    (hA : ∀ v, seen.any (fun s => jsEq s v) = true ↔ 1 ≤ occCount pre v) :
    ∀ v, (numField item :: seen).any (fun s => jsEq s v) = true
      ↔ 1 ≤ occCount (pre ++ [item]) v := by
  intro v
  rw [occCount_append_singleton, List.any_cons]
  cases hj : jsEq (numField item) v
  · rw [if_neg (by simp [hj])]
    simp only [hj, Bool.false_or]
    simpa using hA v
  · simp

/-- Loop invariant of `checkForDuplicateNumber`: with `pre` the already
processed prefix, `seen` holds exactly the values occurring in `pre`, and
`dups` holds exactly one entry per value occurring at least twice in `pre`,
carrying its exact occurrence count, ordered by second occurrence. -/
theorem checkLoop_inv (data : List Record) :
    ∀ (pre : List Record) (seen : List (Option JSVal))
      (dups : List DuplicateEntry),
    (∀ v, seen.any (fun s => jsEq s v) = true ↔ 1 ≤ occCount pre v) →
    (∀ v, dups.countP (fun d => jsEq d.channel v)
        = if 2 ≤ occCount pre v then 1 else 0) →
    (∀ d ∈ dups, isPrim d.channel = true ∧ d.count = occCount pre d.channel) →
    (∀ v, (checkLoop data seen dups).countP (fun d => jsEq d.channel v)
        = if 2 ≤ occCount (pre ++ data) v then 1 else 0)
    ∧ (∀ d ∈ checkLoop data seen dups,
        isPrim d.channel = true ∧ d.count = occCount (pre ++ data) d.channel)
    ∧ (checkLoop data seen dups).map DuplicateEntry.channel
        = dups.map DuplicateEntry.channel ++ secondOccSeq pre data := by
  induction data with
  | nil =>
    intro pre seen dups hA hB hC
    simp only [checkLoop, List.append_nil, secondOccSeq]
    exact ⟨hB, hC, by simp⟩
  | cons item rest ih =>
    intro pre seen dups hA hB hC
    have hocc2all : ∀ d ∈ dups, 2 ≤ occCount pre d.channel := by
      intro d hd
      have hpos : 0 < dups.countP (fun x => jsEq x.channel d.channel) :=
        List.countP_pos_iff.mpr ⟨d, hd, jsEq_refl _ (hC d hd).1⟩
      have hx := hB d.channel
      by_cases h2 : 2 ≤ occCount pre d.channel
      · exact h2
      · rw [if_neg h2] at hx; omega
    cases hseen : seen.any (fun s => jsEq s (numField item)) with
    | false =>
      -- first occurrence: number added to the seen set
      have hocc0 : occCount pre (numField item) = 0 := by
        by_contra hne
        have h1 : 1 ≤ occCount pre (numField item) := by omega
        have := (hA (numField item)).mpr h1
        rw [hseen] at this
        exact Bool.false_ne_true this
      have hred : checkLoop (item :: rest) seen dups
          = checkLoop rest (numField item :: seen) dups := by
        simp [checkLoop, hseen]
      have hB2 : ∀ v, dups.countP (fun d => jsEq d.channel v)
          = if 2 ≤ occCount (pre ++ [item]) v then 1 else 0 := by
        intro v
        rw [occCount_append_singleton]
        cases hj : jsEq (numField item) v with
        | false =>
          simpa using hB v
        | true =>
          obtain ⟨hp, hv⟩ := (jsEq_iff _ _).mp hj
          subst hv
          rw [hB, hocc0]
          simp
      have hC2 : ∀ d ∈ dups,
          isPrim d.channel = true ∧
            d.count = occCount (pre ++ [item]) d.channel := by
        intro d hd
        obtain ⟨hp, hcount⟩ := hC d hd
        refine ⟨hp, ?_⟩
        rw [occCount_append_singleton]
        have hδ : jsEq (numField item) d.channel = false := by
          cases hx : jsEq (numField item) d.channel with
          | false => rfl
          | true =>
            obtain ⟨hpn, hveq⟩ := (jsEq_iff _ _).mp hx
            exfalso
            have := hocc2all d hd
            rw [← hveq, hocc0] at this
            omega
        rw [if_neg (by simp [hδ])]
        simpa using hcount
      obtain ⟨g1, g2, g3⟩ := ih (pre ++ [item]) (numField item :: seen) dups
        (seen_inv_extend_new pre seen item hA) hB2 hC2
      refine ⟨?_, ?_, ?_⟩
      · intro v
        rw [hred, occCount_append_cons]
        exact g1 v
      · intro d hd
        rw [hred] at hd
        rw [occCount_append_cons]
        exact g2 d hd
      · rw [hred, g3]
        have hso : secondOccSeq pre (item :: rest)
            = secondOccSeq (pre ++ [item]) rest := by
          simp only [secondOccSeq]
          rw [if_neg (by omega)]
        rw [hso]
    | true =>
      have hocc1 : 1 ≤ occCount pre (numField item) := (hA _).mp hseen
      cases hfind : dups.find? (fun d => jsEq d.channel (numField item)) with
      | some d0 =>
        -- value already reported: its entry is incremented
        have hd0mem : d0 ∈ dups := List.mem_of_find?_eq_some hfind
        have hd0eq : jsEq d0.channel (numField item) = true := by
          have := List.find?_some hfind
          simpa using this
        have hd0prim : isPrim d0.channel = true := (hC d0 hd0mem).1
        have hchan : d0.channel = numField item :=
          ((jsEq_iff _ _).mp hd0eq).2
        have hnprim : isPrim (numField item) = true := hchan ▸ hd0prim
        have hocc2 : 2 ≤ occCount pre (numField item) :=
          hchan ▸ hocc2all d0 hd0mem
        have hle1 : dups.countP (fun d => jsEq d.channel (numField item)) ≤ 1 := by
          rw [hB]; split <;> omega
        have hmapform : incrementFirst (numField item) dups
            = dups.map (fun d => if jsEq d.channel (numField item)
                then DuplicateEntry.mk d.channel (d.count + 1) else d) :=
          incrementFirst_eq_map _ _ hle1
        have hred : checkLoop (item :: rest) seen dups
            = checkLoop rest seen (incrementFirst (numField item) dups) := by
          simp [checkLoop, hseen, hfind]
        have hB2 : ∀ v,
            (incrementFirst (numField item) dups).countP
              (fun d => jsEq d.channel v)
            = if 2 ≤ occCount (pre ++ [item]) v then 1 else 0 := by
          intro v
          rw [hmapform, countP_incrementMap, occCount_append_singleton]
          cases hj : jsEq (numField item) v with
          | false =>
            simpa using hB v
          | true =>
            obtain ⟨hp, hv⟩ := (jsEq_iff _ _).mp hj
            subst hv
            rw [hB]
            rw [if_pos hocc2, if_pos (by simp; omega)]
        have hC2 : ∀ d ∈ incrementFirst (numField item) dups,
            isPrim d.channel = true ∧
              d.count = occCount (pre ++ [item]) d.channel := by
          intro d' hd'
          rw [hmapform] at hd'
          obtain ⟨d, hd, rfl⟩ := List.mem_map.mp hd'
          obtain ⟨hp, hcount⟩ := hC d hd
          by_cases hjd : jsEq d.channel (numField item) = true
          · obtain ⟨hpd, hveq⟩ := (jsEq_iff _ _).mp hjd
            rw [if_pos hjd]
            refine ⟨hp, ?_⟩
            have hδ : jsEq (numField item) d.channel = true :=
              (jsEq_iff _ _).mpr ⟨hveq ▸ hp, hveq.symm⟩
            dsimp only
            rw [occCount_append_singleton, if_pos hδ]
            omega
          · rw [if_neg hjd]
            refine ⟨hp, ?_⟩
            have hδ : jsEq (numField item) d.channel = false := by
              cases hx : jsEq (numField item) d.channel with
              | false => rfl
              | true =>
                obtain ⟨hpn, hveq⟩ := (jsEq_iff _ _).mp hx
                exact absurd ((jsEq_iff _ _).mpr ⟨hp, hveq.symm⟩) hjd
            rw [occCount_append_singleton, if_neg (by simp [hδ])]
            simpa using hcount
        obtain ⟨g1, g2, g3⟩ := ih (pre ++ [item]) seen
          (incrementFirst (numField item) dups)
          (seen_inv_extend pre seen item hA hseen) hB2 hC2
        refine ⟨?_, ?_, ?_⟩
        · intro v
          rw [hred, occCount_append_cons]
          exact g1 v
        · intro d hd
          rw [hred] at hd
          rw [List.append_cons]
          exact g2 d hd
        · rw [hred, g3, incrementFirst_map_channel]
          have hso : secondOccSeq pre (item :: rest)
              = secondOccSeq (pre ++ [item]) rest := by
            simp only [secondOccSeq]
            rw [if_neg (by omega)]
          rw [hso]
      | none =>
        -- exactly the second occurrence: a fresh entry with count 2
        have hnone := List.find?_eq_none.mp hfind
        have hcnt0 : dups.countP (fun d => jsEq d.channel (numField item)) = 0 :=
          List.countP_eq_zero.mpr (fun d hd => hnone d hd)
        have hocceq1 : occCount pre (numField item) = 1 := by
          have hx := hB (numField item)
          rw [hcnt0] at hx
          by_cases h2 : 2 ≤ occCount pre (numField item)
          · rw [if_pos h2] at hx; omega
          · omega
        have hnprim : isPrim (numField item) = true := by
          have hpos : 0 < occCount pre (numField item) := by omega
          obtain ⟨it, hit, hjit⟩ := (occCount_pos pre (numField item)).mp hpos
          obtain ⟨hp, hv⟩ := (jsEq_iff _ _).mp hjit
          exact hv ▸ hp
        have hred : checkLoop (item :: rest) seen dups
            = checkLoop rest seen (dups ++ [DuplicateEntry.mk (numField item) 2]) := by
          simp [checkLoop, hseen, hfind]
        have hB2 : ∀ v,
            List.countP (fun d => jsEq d.channel v)
              (dups ++ [DuplicateEntry.mk (numField item) 2])
            = if 2 ≤ occCount (pre ++ [item]) v then 1 else 0 := by
          intro v
          rw [List.countP_append, occCount_append_singleton]
          cases hj : jsEq (numField item) v with
          | false =>
            have hs : List.countP (fun d => jsEq d.channel v)
                [DuplicateEntry.mk (numField item) 2] = 0 := by
              simp [List.countP_cons, hj]
            rw [hs]
            simpa using hB v
          | true =>
            obtain ⟨hp, hv⟩ := (jsEq_iff _ _).mp hj
            subst hv
            have hs : List.countP (fun d => jsEq d.channel (numField item))
                [DuplicateEntry.mk (numField item) 2] = 1 := by
              simp [List.countP_cons, jsEq_refl _ hnprim]
            rw [hs, hcnt0]
            simp [hocceq1]
        have hC2 : ∀ d ∈ dups ++ [DuplicateEntry.mk (numField item) 2],
            isPrim d.channel = true ∧
              d.count = occCount (pre ++ [item]) d.channel := by
          intro d hd
          rw [List.mem_append] at hd
          cases hd with
          | inl hdl =>
            obtain ⟨hp, hcount⟩ := hC d hdl
            refine ⟨hp, ?_⟩
            have hδ : jsEq (numField item) d.channel = false := by
              cases hx : jsEq (numField item) d.channel with
              | false => rfl
              | true =>
                obtain ⟨hpn, hveq⟩ := (jsEq_iff _ _).mp hx
                exfalso
                apply hnone d hdl
                exact (jsEq_iff _ _).mpr ⟨hp, hveq.symm⟩
            rw [occCount_append_singleton, if_neg (by simp [hδ])]
            simpa using hcount
          | inr hdr =>
            have hdr' : d = DuplicateEntry.mk (numField item) 2 := by simpa using hdr
            subst hdr'
            refine ⟨hnprim, ?_⟩
            rw [occCount_append_singleton]
            simp only
            rw [if_pos (jsEq_refl _ hnprim), hocceq1]
        obtain ⟨g1, g2, g3⟩ := ih (pre ++ [item]) seen
          (dups ++ [DuplicateEntry.mk (numField item) 2])
          (seen_inv_extend pre seen item hA hseen) hB2 hC2
        refine ⟨?_, ?_, ?_⟩
        · intro v
          rw [hred, occCount_append_cons]
          exact g1 v
        · intro d hd
          rw [hred] at hd
          rw [List.append_cons]
          exact g2 d hd
        · rw [hred, g3]
          have hso : secondOccSeq pre (item :: rest)
              = numField item :: secondOccSeq (pre ++ [item]) rest := by
            simp only [secondOccSeq]
            rw [if_pos hocceq1]
          rw [hso]
          simp

/-- Specification of the duplicate report, obtained from the loop invariant
at the empty initial state. -/
theorem duplicates_spec (data : List Record) :
    (∀ v, (checkForDuplicateNumber data).duplicates.countP
        (fun d => jsEq d.channel v) = if 2 ≤ occCount data v then 1 else 0)
    ∧ (∀ d ∈ (checkForDuplicateNumber data).duplicates,
        isPrim d.channel = true ∧ d.count = occCount data d.channel)
    ∧ (checkForDuplicateNumber data).duplicates.map DuplicateEntry.channel
        = secondOccSeq [] data := by
  have h := checkLoop_inv data [] [] []
    (by intro v; simp [occCount])
    (by intro v; simp [occCount])
    (by intro d hd; simp at hd)
  simpa [checkForDuplicateNumber] using h

/-- Claim C4: the duplicate report has exactly one entry per `number` value
occurring at least twice, carrying its total occurrence count; values
occurring at most once are never reported; and the entries are ordered by
the position of each value's second occurrence. -/
theorem c4_duplicate_report (data : List Record) :
    (∀ v, 2 ≤ occCount data v →
      ((checkForDuplicateNumber data).duplicates.countP
          (fun d => jsEq d.channel v) = 1
       ∧ ∀ d ∈ (checkForDuplicateNumber data).duplicates,
           jsEq d.channel v = true → d.count = occCount data v))
    ∧ (∀ v, occCount data v ≤ 1 →
        (checkForDuplicateNumber data).duplicates.countP
          (fun d => jsEq d.channel v) = 0)
    ∧ (checkForDuplicateNumber data).duplicates.map DuplicateEntry.channel
        = secondOccSeq [] data := by
  obtain ⟨hB, hC, hD⟩ := duplicates_spec data
  refine ⟨fun v hv => ⟨by rw [hB v, if_pos hv], fun d hd hj => ?_⟩,
    fun v hv => by rw [hB v, if_neg (by omega)], hD⟩
  obtain ⟨hp, hveq⟩ := (jsEq_iff _ _).mp hj
  rw [← hveq]
  exact (hC d hd).2

/-- Witness for C4: a value occurring three times gets one entry, count 3. -/
theorem c4_duplicate_report_witness :
    (checkForDuplicateNumber [sampleNumberOnly "7", sampleNumberOnly "8",
        sampleNumberOnly "7", sampleNumberOnly "7"]).duplicates.countP
      (fun d => jsEq d.channel (some (JSVal.vStr "7"))) = 1
    ∧ ∀ d ∈ (checkForDuplicateNumber [sampleNumberOnly "7",
        sampleNumberOnly "8", sampleNumberOnly "7",
        sampleNumberOnly "7"]).duplicates,
        jsEq d.channel (some (JSVal.vStr "7")) = true →
          d.count = occCount [sampleNumberOnly "7", sampleNumberOnly "8",
            sampleNumberOnly "7", sampleNumberOnly "7"]
            (some (JSVal.vStr "7")) :=
  (c4_duplicate_report [sampleNumberOnly "7", sampleNumberOnly "8",
    sampleNumberOnly "7", sampleNumberOnly "7"]).1
    (some (JSVal.vStr "7")) (by decide)

/-- Claim C10, first half: when the shape validator passed, every record in
the collection carries a string-valued `number`; second half: hence every
reported duplicate identifier is a string (never the undefined value). -/
theorem c10_numbers_are_strings (data : List Record)
    (h : (validateItemFormat data).isValid = true) :
    (∀ item ∈ data, ∃ s, numField item = some (JSVal.vStr s))
    ∧ ∀ d ∈ (checkForDuplicateNumber data).duplicates,
        ∃ s, d.channel = some (JSVal.vStr s) := by
  have h' : ((validateItemFormat data).invalidItems.length == 0) = true := h
  have h0 : (validateItemFormat data).invalidItems.length = 0 := by
    simpa using h'
  have hnil : (validateItemFormat data).invalidItems = [] :=
    List.length_eq_zero.mp h0
  have hvalid : ∀ item ∈ data, itemValid item = true := by
    intro item hitem
    cases hx : itemValid item with
    | true => rfl
    | false =>
      exfalso
      have hx' : (everyCollect item (requiredKeysFor item)).1 = false := hx
      have hmem : (⟨getField item "number",
          (everyCollect item (requiredKeysFor item)).2⟩ : InvalidItem)
          ∈ (validateItemFormat data).invalidItems := by
        show _ ∈ data.filterMap _
        rw [List.mem_filterMap]
        refine ⟨item, hitem, ?_⟩
        simp [hx']
      rw [hnil] at hmem
      simp at hmem
  have hnum : ∀ item ∈ data, ∃ s, numField item = some (JSVal.vStr s) := by
    intro item hitem
    have hall := (everyCollect_true_iff item (requiredKeysFor item)).mp
      (hvalid item hitem)
    have hmem : "number" ∈ requiredKeysFor item := by
      unfold requiredKeysFor
      split
      · decide
      · decide
    have hsf := hall "number" hmem
    cases hval : getField item "number" with
    | none => simp [hasStringField, hasOwnProperty, hval] at hsf
    | some v =>
      cases v with
      | vStr s => exact ⟨s, by simp [numField, hval]⟩
      | vNum r => simp [hasStringField, typeofIsString, hval] at hsf
      | vBool b => simp [hasStringField, typeofIsString, hval] at hsf
      | vNull => simp [hasStringField, typeofIsString, hval] at hsf
      | vArr xs => simp [hasStringField, typeofIsString, hval] at hsf
      | vObj kvs => simp [hasStringField, typeofIsString, hval] at hsf
  refine ⟨hnum, fun d hd => ?_⟩
  obtain ⟨hB, hC, hD⟩ := duplicates_spec data
  have hpos : 0 < (checkForDuplicateNumber data).duplicates.countP
      (fun x => jsEq x.channel d.channel) :=
    List.countP_pos_iff.mpr ⟨d, hd, jsEq_refl _ (hC d hd).1⟩
  have hocc : 2 ≤ occCount data d.channel := by
    have hx := hB d.channel
    by_cases h2 : 2 ≤ occCount data d.channel
    · exact h2
    · rw [if_neg h2] at hx; omega
  obtain ⟨it, hit, hj⟩ := (occCount_pos data d.channel).mp (by omega)
  obtain ⟨hp, hv⟩ := (jsEq_iff _ _).mp hj
  obtain ⟨s, hs⟩ := hnum it hit
  exact ⟨s, by rw [← hv, hs]⟩

/-- Witness for C10 on a concrete collection that passes the shape check. -/
theorem c10_numbers_are_strings_witness :
    (∀ item ∈ [sampleVideo1, sampleAudio],
      ∃ s, numField item = some (JSVal.vStr s))
    ∧ ∀ d ∈ (checkForDuplicateNumber [sampleVideo1, sampleAudio]).duplicates,
        ∃ s, d.channel = some (JSVal.vStr s) :=
  c10_numbers_are_strings [sampleVideo1, sampleAudio] (by decide)

/-- Pairwise-distinct numbers make every occurrence count at most one. -/
theorem occ_le_one_of_pairwise (data : List Record)
    (h : (data.map numField).Pairwise (fun a b => jsEq a b = false)) :
    ∀ v, occCount data v ≤ 1 := by
  induction data with
  | nil => intro v; simp [occCount]
  | cons item rest ih =>
    rw [List.map_cons, List.pairwise_cons] at h
    obtain ⟨hhead, htail⟩ := h
    intro v
    have hsplit : occCount (item :: rest) v
        = occCount rest v + (if jsEq (numField item) v then 1 else 0) := by
      simp [occCount, List.countP_cons]
    rw [hsplit]
    cases hj : jsEq (numField item) v with
    | false => simpa using ih htail v
    | true =>
      obtain ⟨hp, hv⟩ := (jsEq_iff _ _).mp hj
      have h0 : occCount rest v = 0 := by
        apply List.countP_eq_zero.mpr
        intro j hj' hc
        obtain ⟨hpj, hvj⟩ := (jsEq_iff _ _).mp hc
        have hb := hhead (numField j) (List.mem_map_of_mem _ hj')
        have : jsEq (numField item) (numField j) = true :=
          (jsEq_iff _ _).mpr ⟨hp, by rw [hv, ← hvj]⟩
        rw [hb] at this
        exact Bool.false_ne_true this
      rw [h0]
      simp

/-- A collection of records that all pass their variant's check validates
cleanly. -/
theorem validateItemFormat_all_valid (data : List Record)
    (hvalid : ∀ item ∈ data, itemValid item = true) :
    (validateItemFormat data).isValid = true := by
  have hnil : (validateItemFormat data).invalidItems = [] := by
    show data.filterMap _ = []
    rw [List.filterMap_eq_nil_iff]
    intro item hitem
    have hx : (everyCollect item (requiredKeysFor item)).1 = true :=
      hvalid item hitem
    simp [hx]
  show ((validateItemFormat data).invalidItems.length == 0) = true
  rw [hnil]
  rfl

/-- With every occurrence count at most one, the duplicate checker finds
nothing. -/
theorem checkForDuplicateNumber_none (data : List Record)
    (hocc1 : ∀ v, occCount data v ≤ 1) :
    (checkForDuplicateNumber data).hasDuplicate = false := by
  obtain ⟨hB, hC, hD⟩ := duplicates_spec data
  have hdup : (checkForDuplicateNumber data).duplicates = [] := by
    cases hx : (checkForDuplicateNumber data).duplicates with
    | nil => rfl
    | cons d ds =>
      exfalso
      have hd : d ∈ (checkForDuplicateNumber data).duplicates := by
        rw [hx]; simp
      have hpos : 0 < (checkForDuplicateNumber data).duplicates.countP
          (fun x => jsEq x.channel d.channel) :=
        List.countP_pos_iff.mpr ⟨d, hd, jsEq_refl _ (hC d hd).1⟩
      have hx2 := hB d.channel
      rw [if_neg (by have := hocc1 d.channel; omega)] at hx2
      omega
  show decide (0 < (checkForDuplicateNumber data).duplicates.length) = false
  rw [hdup]
  rfl

/-- Claim C3: on a directory whose files all parse and whose records are all
schema-valid with pairwise-distinct `number` values, the run writes the
concatenation of the parsed arrays in enumeration order, serialized as
2-space-indented JSON, and reports the total entry count. -/
theorem c3_valid_inputs_written (files : List (Option (List Record)))
    (hparse : ∀ f ∈ files, f.isSome = true)
    (hvalid : ∀ item ∈ mergeData files, itemValid item = true)
    (hdistinct : ((mergeData files).map numField).Pairwise
      (fun a b => jsEq a b = false)) :
    mainForFiles files
      = MainOutcome.written (jsStringify ((files.filterMap id).flatten))
          ((files.filterMap id).flatten).length := by
  have hval : (validateItemFormat (mergeData files)).isValid = true :=
    validateItemFormat_all_valid _ hvalid
  have hdup : (checkForDuplicateNumber (mergeData files)).hasDuplicate = false :=
    checkForDuplicateNumber_none _ (occ_le_one_of_pairwise _ hdistinct)
  have hm := mergeData_eq_flatten files
  rw [← hm]
  simp [mainForFiles, mainRun, hval, hdup]

/-- Witness for C3 on a concrete valid two-file directory. -/
theorem c3_valid_inputs_written_witness :
    mainForFiles [some [sampleVideo1, sampleVideo2], some [sampleAudio]]
      = MainOutcome.written
          (jsStringify (([some [sampleVideo1, sampleVideo2],
            some [sampleAudio]].filterMap id).flatten))
          (([some [sampleVideo1, sampleVideo2],
            some [sampleAudio]].filterMap id).flatten).length :=
  c3_valid_inputs_written [some [sampleVideo1, sampleVideo2],
    some [sampleAudio]] (by decide) (by decide) (by decide)
